import Mathlib

/-!
Verification development for the PolyScan chunked document-analysis pipeline
(`chunked_analyzer.py`).  Text is modelled as `List Char`; the regex-based
transformations of the source are translated into structural state machines so
that every definition is executable.
-/

namespace PolyScan

/-- Python `\s` on the ASCII range (the whitespace characters relevant here). -/
def pySpace (c : Char) : Bool :=
  c = ' ' || c = '\t' || c = '\n' || c = '\r' || c = '\x0b' || c = '\x0c'

/-- The sentence-ending characters of the split pattern `(?<=[.!?])\s+`. -/
def sentEnd (c : Char) : Bool :=
  c = '.' || c = '!' || c = '?'

/-- State machine for `re.split(r'(?<=[.!?])\s+', text)`.
`some acc` means we are inside a fragment whose characters so far are `acc`
(reversed); `none` means we are consuming the whitespace run of a separator
(the `\s+` is greedy, so the whole run is skipped). -/
def splitAux : Option (List Char) → List Char → List (List Char)
  | none, [] => [[]]
  | some acc, [] => [acc.reverse]
  | none, c :: rest =>
      if pySpace c then splitAux none rest else splitAux (some [c]) rest
  | some acc, c :: rest =>
      if (match acc with | p :: _ => sentEnd p && pySpace c | [] => false) then
        acc.reverse :: splitAux none rest
      else
        splitAux (some (c :: acc)) rest

/-- `re.split(r'(?<=[.!?])\s+', text)` from `extract_sentences_from_text`. -/
def splitSentences (text : List Char) : List (List Char) :=
  splitAux (some []) text

/-- Python `str.strip()` (whitespace from both ends). -/
def pyStrip (l : List Char) : List Char :=
  ((l.dropWhile pySpace).reverse.dropWhile pySpace).reverse

/-- `extract_sentences_from_text`: split, then keep `s.strip()` for fragments
with `s.strip()` truthy and `len(s.strip()) > 10`. -/
def extract_sentences_from_text (text : List Char) : List (List Char) :=
  ((splitSentences text).map pyStrip).filter (fun s => !s.isEmpty && decide (10 < s.length))

/-! ### XML text normalization (`read_xml_sentences`) -/

/-- State machine for `re.sub(r'<[^>]+>', ' ', content)`: each maximal
`<`…`>` span with at least one non-`>` character inside is replaced by a
single space.  `some buf` records the characters seen after an opening `<`
(reversed) while looking for the closing `>`. -/
def stripTagsAux : Option (List Char) → List Char → List Char
  | none, [] => []
  | none, c :: rest =>
      if c = '<' then stripTagsAux (some []) rest else c :: stripTagsAux none rest
  | some buf, [] => '<' :: buf.reverse
  | some buf, c :: rest =>
      if c = '>' then
        match buf with
        | [] => '<' :: '>' :: stripTagsAux none rest
        | _ :: _ => ' ' :: stripTagsAux none rest
      else stripTagsAux (some (c :: buf)) rest

def stripTags (content : List Char) : List Char :=
  stripTagsAux none content

/-- State machine for `re.sub(r'\s+', ' ', text)`: every maximal whitespace
run becomes one space.  The `Bool` records whether we are inside a run whose
replacement space was already emitted. -/
def collapseAux : Bool → List Char → List Char
  | _, [] => []
  | inRun, c :: rest =>
      if pySpace c then
        if inRun then collapseAux true rest else ' ' :: collapseAux true rest
      else c :: collapseAux false rest

def collapseSpaces (l : List Char) : List Char :=
  collapseAux false l

/-- State machine for `re.sub(r'<\?[^>]*\?>', '', text)`: a span
`<?`…`?>` with no `>` inside is deleted.  `some buf` records the characters
seen after an opening `<?` (reversed). -/
def removePIAux : Option (List Char) → List Char → List Char
  | none, [] => []
  | none, '<' :: '?' :: rest => removePIAux (some []) rest
  | none, c :: rest => c :: removePIAux none rest
  | some buf, [] => '<' :: '?' :: buf.reverse
  | some buf, c :: rest =>
      if c = '>' then
        match buf with
        | '?' :: _ => removePIAux none rest
        | _ => '<' :: '?' :: (buf.reverse ++ '>' :: removePIAux none rest)
      else removePIAux (some (c :: buf)) rest

def removePI (l : List Char) : List Char :=
  removePIAux none l

/-- The three normalization substitutions of `read_xml_sentences`, in source
order: strip tags, collapse whitespace and strip, remove processing
instructions. -/
def normalizeXml (content : List Char) : List Char :=
  removePI (pyStrip (collapseSpaces (stripTags content)))

/-- `"... [truncated for performance]"`, appended when the normalized XML text
exceeds 50,000 characters. -/
def truncMarkerText : List Char :=
  "... [truncated for performance]".toList

/-- `"XML Phrase 201: [Additional content truncated for performance]"`, the
final unit when more than 200 sentences are extracted. -/
def phrase201Marker : List Char :=
  "XML Phrase 201: [Additional content truncated for performance]".toList

/-- The `f"XML Phrase {i+1}: "` label put in front of each XML sentence. -/
def xmlPhraseLabel (n : Nat) : List Char :=
  ("XML Phrase " ++ toString n ++ ": ").toList

/-- `[f"XML Phrase {i+1}: {sentence}" for i, sentence in enumerate(xs)]`,
with `k` the 1-based number of the first element. -/
def labelPhrases : Nat → List (List Char) → List (List Char)
  | _, [] => []
  | k, s :: rest => (xmlPhraseLabel k ++ s) :: labelPhrases (k + 1) rest

/-- The text handed to sentence extraction in `read_xml_sentences`: the
normalized text, truncated to 50,000 characters plus a marker when longer. -/
def xmlSourceText (content : List Char) : List Char :=
  let text := normalizeXml content
  if 50000 < text.length then text.take 50000 ++ truncMarkerText else text

/-- `read_xml_sentences` (lines 65-99): normalize, cap the text at 50,000
characters, extract sentences, cap the unit count at 200 plus a marker unit,
and label every unit.  The `open`/`read` failure branch (which returns `[]`)
is outside the model: the file content is supplied directly. -/
def read_xml_sentencesL (content : List Char) : List (List Char) :=
  let xml_sentences := extract_sentences_from_text (xmlSourceText content)
  if 200 < xml_sentences.length then
    labelPhrases 1 (xml_sentences.take 200) ++ [phrase201Marker]
  else
    labelPhrases 1 xml_sentences

/-- `read_txt_sentences` (the `open` failure branch returning `[]` is outside
the model: content is supplied directly). -/
def read_txt_sentencesL (content : List Char) : List (List Char) :=
  extract_sentences_from_text content

/-- `read_html_sentences`.  BeautifulSoup's script/style removal and
`get_text()` are an external library, modelled by the parameter `getText`. -/
def read_html_sentencesL (getText : List Char → List Char) (content : List Char) :
    List (List Char) :=
  extract_sentences_from_text (getText content)

/-- `file_path.lower().split('.')[-1]`: the segment of the lowercased path
after its last `'.'` (the whole lowercased path when it has no `'.'`).
`acc` holds the current segment, reversed. -/
def lastDotSegAux : List Char → List Char → List Char
  | acc, [] => acc.reverse
  | acc, c :: rest => if c = '.' then lastDotSegAux [] rest else lastDotSegAux (c :: acc) rest

def pyExtTag (path : List Char) : List Char :=
  lastDotSegAux [] (path.map Char.toLower)

/-- `read_file_sentences` (lines 51-63): dispatch on the inferred format tag;
an unrecognized tag prints a message and yields `[]`. -/
def read_file_sentencesL (getText : List Char → List Char) (path content : List Char) :
    List (List Char) :=
  let ext := pyExtTag path
  if ext = ("xml").toList then read_xml_sentencesL content
  else if ext = ("html").toList then read_html_sentencesL getText content
  else if ext = ("txt").toList then read_txt_sentencesL content
  else []

/-- A 13-character sentence used as a concrete loader input in witnesses. -/
def fragT : List Char :=
  ("aaaaaaaaaaaa.").toList

/-! ### Chunk partitioner (`main`, line 197) -/

/-- `[sentences[i:i + chunk_size] for i in range(0, len(sentences), chunk_size)]`:
`range(0, n, C)` has `(n + C - 1) / C` elements and `l[i:i+C]` is
`(l.drop i).take C`. -/
def makeChunks (C : Nat) (l : List α) : List (List α) :=
  (List.range' 0 ((l.length + C - 1) / C) C).map fun i => (l.drop i).take C

/-! ### Completion capability (`bedrock.converse`) and the two analysis calls -/

/-- One `bedrock.converse` request.  The temperature is 0.1 in both calls and
is not modelled. -/
structure BedrockRequest where
  modelId : String
  promptText : String
  maxTokens : Nat
deriving DecidableEq

/-- The completion capability: a call either returns text or raises, modelled
as `Except` with the exception rendered as a string (Python's `f"{e}"`). -/
structure Bedrock where
  converse : BedrockRequest → Except String String

def sonnetModelId : String :=
  "global.anthropic.claude-sonnet-4-5-20250929-v1:0"

/-- The extraction prompt of `analyze_chunk` (lines 104-114). -/
def chunkPrompt (content : String) (chunk_num total_chunks : Nat) : String :=
  "Extract key information from this regulatory document chunk "
    ++ toString chunk_num ++ "/" ++ toString total_chunks ++ ":\n\n" ++ content
    ++ "\n\nExtract:\n1. Key provisions and financial amounts\n2. Affected sectors and companies\n3. Implementation timelines\n4. Economic impacts\n\nBe concise and factual."

/-- `analyze_chunk` (lines 101-124): join the chunk's sentences with newlines,
call the completion capability, and turn any exception into the
`"Chunk <n> analysis failed: <e>"` marker instead of re-raising. -/
def analyze_chunk (bedrock : Bedrock) (sentences : List String)
    (chunk_num total_chunks : Nat) : String :=
  let content := String.intercalate ("\n") sentences
  match bedrock.converse ⟨sonnetModelId, chunkPrompt content chunk_num total_chunks, 1500⟩ with
  | Except.ok t => t
  | Except.error e => "Chunk " ++ toString chunk_num ++ " analysis failed: " ++ e

/-- Fixed text of the fusion prompt before `combined_content` (line 129). -/
def fusionTemplatePre : String :=
  "Based on these chunk analyses of a regulatory bill, provide a consolidated report:\n\n"

/-- Fixed text of the fusion prompt after `combined_content` (lines 133-162),
including the trailing blanks of the source lines 140 and 153. -/
def fusionTemplatePost : String :=
  "\n\nProvide EXACTLY this structure:\n\n1. BILL SUMMARY:\n[Key facts about the bill - what it does, main provisions, budget amounts]\n\n2. TOP 5 IMPACTED SECTORS:\nSector 1: [Name] - Impact Score: [1-10] - [Description]\nSector 2: [Name] - Impact Score: [1-10] - [Description] \nSector 3: [Name] - Impact Score: [1-10] - [Description]\nSector 4: [Name] - Impact Score: [1-10] - [Description]\nSector 5: [Name] - Impact Score: [1-10] - [Description]\n\n3. TOP 3 STOCKS PER SECTOR:\nSector 1 Stocks:\n- [TICKER]: [Company] - [Impact description]\n- [TICKER]: [Company] - [Impact description]\n- [TICKER]: [Company] - [Impact description]\n\nSector 2 Stocks:\n- [TICKER]: [Company] - [Impact description]\n- [TICKER]: [Company] - [Impact description] \n- [TICKER]: [Company] - [Impact description]\n\n[Continue for all 5 sectors]\n\n4. MARKET PREDICTIONS:\nMid-term (6-18 months): [Predictions]\nLong-term (2-5 years): [Predictions]\n\nBe specific with company names and stock tickers."

/-- The consolidation prompt of `fusion_analysis`:
`"\n\n".join(chunk_results)` framed by the fixed template. -/
def fusionPrompt (chunk_results : List String) : String :=
  fusionTemplatePre ++ String.intercalate ("\n\n") chunk_results ++ fusionTemplatePost

/-- `fusion_analysis` (lines 126-172): one consolidation call; any exception
becomes the `"Fusion analysis failed: <e>"` marker instead of re-raising. -/
def fusion_analysis (bedrock : Bedrock) (chunk_results : List String) : String :=
  match bedrock.converse ⟨sonnetModelId, fusionPrompt chunk_results, 3000⟩ with
  | Except.ok t => t
  | Except.error e => "Fusion analysis failed: " ++ e

/-! ### The run (`main`, lines 174-232) -/

/-- The `results` list of the loop in `main` (lines 204-209):
`f"CHUNK {i}:\n{analyze_chunk(chunk, i, len(chunks))}"` for
`i, chunk in enumerate(chunks, 1)`. -/
def chunkEntriesAux (bedrock : Bedrock) (total : Nat) : Nat → List (List String) → List String
  | _, [] => []
  | i, chunk :: rest =>
      ("CHUNK " ++ toString i ++ ":\n" ++ analyze_chunk bedrock chunk i total)
        :: chunkEntriesAux bedrock total (i + 1) rest

def chunkEntries (bedrock : Bedrock) (chunks : List (List String)) : List String :=
  chunkEntriesAux bedrock chunks.length 1 chunks

/-- Index of the last occurrence of `c` in the list, if any. -/
def lastIdxOf (c : Char) : List Char → Option Nat
  | [] => none
  | a :: rest =>
      match lastIdxOf c rest with
      | some i => some (i + 1)
      | none => if a = c then some 0 else none

/-- `os.path.basename`: everything after the last `'/'`. -/
def pyBasename (p : List Char) : List Char :=
  match lastIdxOf '/' p with
  | some i => p.drop (i + 1)
  | none => p

/-- The root part of `os.path.splitext`: cut at the last `'.'`, unless every
character before it is a `'.'` (so `.bashrc`-style names keep their dot). -/
def splitextRoot (p : List Char) : List Char :=
  match lastIdxOf '.' p with
  | some i => if (p.take i).any (fun c => c ≠ '.') then p.take i else p
  | none => p

/-- `f"consolidated_analysis_{base_name}.txt"` with
`base_name = os.path.splitext(os.path.basename(file_path))[0]` (lines 228-229). -/
def artifactName (file_path : String) : String :=
  "consolidated_analysis_" ++ String.mk (splitextRoot (pyBasename file_path.toList)) ++ ".txt"

/-- String-level wrapper of the loader, as consumed by `main`. -/
def read_file_sentencesS (getText : List Char → List Char) (path content : String) :
    List String :=
  (read_file_sentencesL getText path.toList content.toList).map String.mk

/-- Observable outcome of one process run of `chunked_analyzer.py`:
the process exit status, the artifact written by the sink (name and content),
and the number of completion-capability calls issued. -/
structure RunResult where
  exitCode : Nat
  artifact : Option (String × String)
  completionCalls : Nat
deriving DecidableEq

/-- `main` (lines 174-232).  `fs` is the file system (path to content),
`argv` is `sys.argv`.  Every early-exit path uses a plain `return`, so the
process exit status is 0 on all modelled paths; the sink's `open(..., 'w')`
is assumed to succeed (its failure would be the only non-zero exit). -/
def pyMain (getText : List Char → List Char) (bedrock : Bedrock)
    (fs : String → Option String) (argv : List String) : RunResult :=
  if argv.length ≠ 2 then ⟨0, none, 0⟩
  else
    let file_path := argv.getD 1 ""
    match fs file_path with
    | none => ⟨0, none, 0⟩
    | some content =>
        let sentences := read_file_sentencesS getText file_path content
        if sentences.isEmpty then ⟨0, none, 0⟩
        else
          let chunks := makeChunks 400 sentences
          let results := chunkEntries bedrock chunks
          let final_report := fusion_analysis bedrock results
          ⟨0, some (artifactName file_path, final_report), chunks.length + 1⟩

/-- Effect of a run on the disk: `open(output_file, 'w')` overwrites the
artifact under its deterministic name and touches nothing else. -/
def applyRun (r : RunResult) (disk : String → Option String) : String → Option String :=
  match r.artifact with
  | none => disk
  | some (n, c) => fun m => if m = n then some c else disk m

/-! ### Declarative characterization of the sentence split -/

/-- No position inside the list is a split boundary (a sentence-ending
character followed by whitespace). -/
def noBoundary : List Char → Bool
  | p :: c :: rest => !(sentEnd p && pySpace c) && noBoundary (c :: rest)
  | _ => true

/-- Reassemble fragments and the separators between them. -/
def interleave : List (List Char) → List (List Char) → List Char
  | f :: fs, s :: ss => f ++ s ++ interleave fs ss
  | f :: _, [] => f
  | [], _ => []

/-- A legal separator after fragment `f`: nonempty whitespace whose preceding
character (the fragment's last) ends a sentence. -/
def sepOk (f s : List Char) : Bool :=
  !s.isEmpty && s.all pySpace
    && (match f.getLast? with | some p => sentEnd p | none => false)

/-- The fragments/separators alternate correctly: one more fragment than
separators, and each separator is legal after its fragment. -/
def chainOk : List (List Char) → List (List Char) → Bool
  | [_], [] => true
  | f :: fs, s :: ss => sepOk f s && chainOk fs ss
  | _, _ => false

/-- Modelled from the spec: the fusion prompt mandates a report in a fixed
section structure whose first heading is `1. BILL SUMMARY` (source line 135),
so a successful structured report begins with that heading. -/
def isStructuredReport (t : String) : Bool :=
  ("1. BILL SUMMARY").toList.isPrefixOf t.toList

/-! ### Lemmas about the partitioner -/

theorem makeChunks_nil {α : Type} : makeChunks 400 ([] : List α) = [] := by
  norm_num [makeChunks]

theorem range'_shift_map {α : Type} (l : List α) :
    ∀ (k s : Nat),
      (List.range' (s + 400) k 400).map (fun i => (l.drop i).take 400)
        = (List.range' s k 400).map (fun i => ((l.drop 400).drop i).take 400) := by
  intro k
  induction k with
  | zero => intro s; rfl
  | succ k ih =>
      intro s
      rw [List.range'_succ, List.range'_succ, List.map_cons, List.map_cons]
      have hhead : (l.drop (s + 400)).take 400 = ((l.drop 400).drop s).take 400 := by
        rw [List.drop_drop, Nat.add_comm 400 s]
      rw [hhead, ih (s + 400)]

theorem makeChunks_cons {α : Type} (l : List α) (h : l ≠ []) :
    makeChunks 400 l = l.take 400 :: makeChunks 400 (l.drop 400) := by
  have hn : 0 < l.length := List.length_pos.mpr h
  have hceil : (l.length + 400 - 1) / 400 = ((l.length - 400) + 400 - 1) / 400 + 1 := by
    omega
  unfold makeChunks
  rw [List.length_drop, hceil, List.range'_succ, List.map_cons, List.drop_zero,
    Nat.zero_add]
  rw [range'_shift_map l _ 0]

theorem makeChunks_length {α : Type} (l : List α) :
    (makeChunks 400 l).length = (l.length + 400 - 1) / 400 := by
  simp [makeChunks]

theorem makeChunks_join {α : Type} :
    ∀ (n : Nat) (l : List α), l.length ≤ n → (makeChunks 400 l).flatten = l := by
  intro n
  induction n with
  | zero =>
      intro l hl
      have : l = [] := by
        cases l with
        | nil => rfl
        | cons a t => simp at hl
      rw [this, makeChunks_nil]
      rfl
  | succ n ih =>
      intro l hl
      by_cases h : l = []
      · rw [h, makeChunks_nil]; rfl
      · rw [makeChunks_cons l h, List.flatten_cons,
          ih (l.drop 400) (by rw [List.length_drop]; omega)]
        exact List.take_append_drop 400 l

theorem makeChunks_mem {α : Type} :
    ∀ (n : Nat) (l : List α), l.length ≤ n →
      ∀ c ∈ makeChunks 400 l, c ≠ [] ∧ c.length ≤ 400 := by
  intro n
  induction n with
  | zero =>
      intro l hl c hc
      have : l = [] := by
        cases l with
        | nil => rfl
        | cons a t => simp at hl
      rw [this, makeChunks_nil] at hc
      simp at hc
  | succ n ih =>
      intro l hl c hc
      by_cases h : l = []
      · rw [h, makeChunks_nil] at hc; simp at hc
      · rw [makeChunks_cons l h] at hc
        rcases List.mem_cons.mp hc with hc | hc
        · subst hc
          have hn : 0 < l.length := List.length_pos.mpr h
          constructor
          · intro he
            have hlen : (l.take 400).length = 0 := by rw [he]; rfl
            rw [List.length_take] at hlen
            omega
          · simp [List.length_take]
        · exact ih (l.drop 400) (by rw [List.length_drop]; omega) c hc

theorem makeChunks_full {α : Type} (l : List α) (i : Nat)
    (h2 : i < (makeChunks 400 l).length) (h1 : i + 1 < (makeChunks 400 l).length) :
    ((makeChunks 400 l).get ⟨i, h2⟩).length = 400 := by
  have hk : (makeChunks 400 l).length = (l.length + 400 - 1) / 400 := makeChunks_length l
  have hget : (makeChunks 400 l).get ⟨i, h2⟩ = (l.drop (0 + 400 * i)).take 400 := by
    unfold makeChunks
    unfold makeChunks at h2
    simp only [List.get_eq_getElem, List.getElem_map, List.getElem_range']
  rw [hget, List.length_take, List.length_drop]
  rw [hk] at h1
  omega

theorem noBoundary_singleton (c : Char) : noBoundary [c] = true := by
  simp [noBoundary]

theorem noBoundary_nil : noBoundary [] = true := by
  simp [noBoundary]

theorem noBoundary_snoc : ∀ (l : List Char) (c : Char),
    noBoundary l = true →
    (∀ p, l.getLast? = some p → (sentEnd p && pySpace c) = false) →
    noBoundary (l ++ [c]) = true := by
  intro l
  induction l with
  | nil => intro c _ _; exact noBoundary_singleton c
  | cons a t ih =>
      intro c h h2
      cases t with
      | nil =>
          have := h2 a rfl
          simp [noBoundary, this]
      | cons b t' =>
          have hab : (sentEnd a && pySpace b) = false ∧ noBoundary (b :: t') = true := by
            have h' := h
            simp [noBoundary] at h'
            refine ⟨?_, h'.2⟩
            rcases h'.1 with hx | hx <;> simp [hx]
          have htail : noBoundary ((b :: t') ++ [c]) = true :=
            ih c hab.2 (fun p hp => h2 p (by rw [← hp]; exact (List.getLast?_cons_cons ..).symm ▸ rfl))
          simp only [List.cons_append] at htail ⊢
          simp [noBoundary, hab.1, htail]

theorem chainOk_cons (f : List Char) (fs : List (List Char)) (s : List Char)
    (ss : List (List Char)) :
    chainOk (f :: fs) (s :: ss) = (sepOk f s && chainOk fs ss) := by
  cases fs <;> rfl

theorem interleave_cons (f : List Char) (fs : List (List Char)) (s : List Char)
    (ss : List (List Char)) :
    interleave (f :: fs) (s :: ss) = f ++ s ++ interleave fs ss := by
  cases fs <;> rfl

theorem splitAux_none_eq (rest : List Char) :
    splitAux none rest = splitAux (some []) (rest.dropWhile pySpace) := by
  induction rest with
  | nil => rfl
  | cons c rest ih =>
      by_cases hc : pySpace c = true
      · simp only [splitAux, hc, if_true, List.dropWhile_cons_of_pos hc]
        exact ih
      · have hc' : pySpace c = false := by
          cases h : pySpace c
          · rfl
          · exact absurd h hc
        rw [List.dropWhile_cons_of_neg hc]
        simp [splitAux, hc']

theorem splitAux_ok : ∀ (n : Nat) (rest : List Char), rest.length ≤ n →
    ∀ acc, noBoundary acc.reverse = true →
    ∃ seps, interleave (splitAux (some acc) rest) seps = acc.reverse ++ rest
      ∧ chainOk (splitAux (some acc) rest) seps = true
      ∧ ∀ f ∈ splitAux (some acc) rest, noBoundary f = true := by
  intro n
  induction n with
  | zero =>
      intro rest hr acc hacc
      have : rest = [] := by
        cases rest with
        | nil => rfl
        | cons a t => simp at hr
      subst this
      exact ⟨[], by simp [splitAux, interleave], by simp [splitAux, chainOk],
        by intro f hf; simp [splitAux] at hf; rw [hf]; exact hacc⟩
  | succ n ih =>
      intro rest hr acc hacc
      cases rest with
      | nil =>
          exact ⟨[], by simp [splitAux, interleave], by simp [splitAux, chainOk],
            by intro f hf; simp [splitAux] at hf; rw [hf]; exact hacc⟩
      | cons c rest' =>
          cases acc with
          | nil =>
              have hstep : splitAux (some []) (c :: rest') = splitAux (some [c]) rest' := by
                simp [splitAux]
              have hnb : noBoundary ([c] : List Char) = true := noBoundary_singleton c
              obtain ⟨seps, h1, h2, h3⟩ :=
                ih rest' (by simpa using hr) [c] (by simpa using hnb)
              refine ⟨seps, ?_, ?_, ?_⟩
              · rw [hstep, h1]; simp
              · rw [hstep]; exact h2
              · rw [hstep]; exact h3
          | cons p acc' =>
              by_cases hb : (sentEnd p && pySpace c) = true
              · -- boundary: emit the fragment, skip the whitespace run
                have hstep : splitAux (some (p :: acc')) (c :: rest')
                    = (p :: acc').reverse :: splitAux (some []) (rest'.dropWhile pySpace) := by
                  simp only [splitAux, hb, if_true]
                  rw [splitAux_none_eq]
                have hdw : (rest'.dropWhile pySpace).length ≤ n := by
                  have h1 := (List.dropWhile_sublist (l := rest') pySpace).length_le
                  simp at hr
                  omega
                obtain ⟨seps, h1, h2, h3⟩ :=
                  ih (rest'.dropWhile pySpace) hdw [] (by simp [noBoundary])
                refine ⟨(c :: rest'.takeWhile pySpace) :: seps, ?_, ?_, ?_⟩
                · rw [hstep, interleave_cons, h1]
                  simp only [List.reverse_nil, List.nil_append, List.append_assoc,
                    List.cons_append]
                  rw [List.takeWhile_append_dropWhile]
                · rw [hstep, chainOk_cons, h2, Bool.and_true]
                  unfold sepOk
                  have hlast : ((p :: acc').reverse).getLast? = some p := by
                    rw [List.reverse_cons]
                    exact List.getLast?_concat _
                  rw [hlast]
                  simp only [List.isEmpty_cons, Bool.not_false, Bool.true_and]
                  have hall : ((c :: rest'.takeWhile pySpace).all pySpace) = true := by
                    rw [List.all_cons]
                    have hc : pySpace c = true := by
                      rcases Bool.and_eq_true_iff.mp hb with ⟨_, h⟩; exact h
                    rw [hc, Bool.true_and, List.all_eq_true]
                    intro x hx
                    exact List.mem_takeWhile_imp hx
                  rw [hall, Bool.true_and]
                  rcases Bool.and_eq_true_iff.mp hb with ⟨h, _⟩; exact h
                · rw [hstep]
                  intro f hf
                  rcases List.mem_cons.mp hf with hf | hf
                  · rw [hf]; exact hacc
                  · exact h3 f hf
              · -- not a boundary: extend the current fragment
                have hb' : (sentEnd p && pySpace c) = false := by
                  cases h : (sentEnd p && pySpace c)
                  · rfl
                  · exact absurd h hb
                have hstep : splitAux (some (p :: acc')) (c :: rest')
                    = splitAux (some (c :: p :: acc')) rest' := by
                  simp [splitAux, hb']
                have hnb : noBoundary ((c :: p :: acc').reverse) = true := by
                  rw [List.reverse_cons]
                  apply noBoundary_snoc _ _ hacc
                  intro q hq
                  have : q = p := by
                    rw [List.reverse_cons, List.getLast?_concat] at hq
                    exact (Option.some.inj hq).symm
                  rw [this]; exact hb'
                obtain ⟨seps, h1, h2, h3⟩ := ih rest' (by simpa using hr) _ hnb
                refine ⟨seps, ?_, ?_, ?_⟩
                · rw [hstep, h1, List.reverse_cons, List.reverse_cons]
                  simp
                · rw [hstep]; exact h2
                · rw [hstep]; exact h3

/-! ### Claims -/

/-- C2: with chunk size 400, the partitioner yields exactly `ceil(N/400)`
chunks, each non-empty, of size 400 except possibly the last, whose
concatenation is the original sequence in original order (so the chunks are
contiguous slices with no reordering, overlap, or gaps). -/
theorem c2_partitioner_shape {α : Type} (l : List α) :
    (makeChunks 400 l).length = (l.length + 400 - 1) / 400
    ∧ (∀ c ∈ makeChunks 400 l, c ≠ [] ∧ c.length ≤ 400)
    ∧ (∀ (i : Nat) (h2 : i < (makeChunks 400 l).length),
        i + 1 < (makeChunks 400 l).length → ((makeChunks 400 l).get ⟨i, h2⟩).length = 400)
    ∧ (makeChunks 400 l).flatten = l := by
  refine ⟨makeChunks_length l, makeChunks_mem l.length l le_rfl, ?_,
    makeChunks_join l.length l le_rfl⟩
  intro i h2 h1
  exact makeChunks_full l i h2 h1

set_option maxRecDepth 10000 in
/-- Witness for C2 at a concrete 401-element input: 2 chunks, the first of
size 400, flattening back to the input. -/
theorem c2_partitioner_shape_witness :
    (makeChunks 400 (List.range 401)).length = ((List.range 401).length + 400 - 1) / 400
    ∧ ((makeChunks 400 (List.range 401)).get ⟨0, by decide⟩).length = 400
    ∧ (makeChunks 400 (List.range 401)).flatten = List.range 401 :=
  ⟨(c2_partitioner_shape (List.range 401)).1,
   (c2_partitioner_shape (List.range 401)).2.2.1 0 (by decide) (by decide),
   (c2_partitioner_shape (List.range 401)).2.2.2⟩

/-- C5 (amended): the unit sequence is obtained by splitting at boundaries
where `.`, `!` or `?` is followed by whitespace — the fragments interleaved
with the consumed separators reproduce the text, every separator is
whitespace preceded by a sentence-ending character, and no fragment contains
such a boundary — and the units are exactly the trimmed fragments whose
trimmed length is MORE than 10 characters (fragments of length 10 or less
are discarded), in original order. -/
theorem c5_segmentation_amended (text : List Char) :
    (∃ seps, interleave (splitSentences text) seps = text
        ∧ chainOk (splitSentences text) seps = true
        ∧ ∀ f ∈ splitSentences text, noBoundary f = true)
    ∧ extract_sentences_from_text text
        = ((splitSentences text).map pyStrip).filter (fun s => decide (10 < s.length)) := by
  constructor
  · have h := splitAux_ok text.length text le_rfl [] (by simp [noBoundary])
    simpa [splitSentences] using h
  · unfold extract_sentences_from_text
    apply List.filter_congr
    intro s _
    cases s with
    | nil => rfl
    | cons a t => simp

/-- Witness for C5 at a concrete text, exhibiting concrete separators and the
concrete unit list. -/
theorem c5_segmentation_amended_witness :
    (∃ seps, interleave (splitSentences (("Hello there. General Kenobi!  Bye.").toList)) seps
        = ("Hello there. General Kenobi!  Bye.").toList
      ∧ chainOk (splitSentences (("Hello there. General Kenobi!  Bye.").toList)) seps = true
      ∧ ∀ f ∈ splitSentences (("Hello there. General Kenobi!  Bye.").toList),
          noBoundary f = true)
    ∧ extract_sentences_from_text (("Hello there. General Kenobi!  Bye.").toList)
        = [("Hello there.").toList, ("General Kenobi!").toList] :=
  ⟨(c5_segmentation_amended (("Hello there. General Kenobi!  Bye.").toList)).1, by decide⟩

/-- C5 counterexample: the claim keeps trimmed fragments of length AT LEAST
10, but the code keeps only those of length MORE than 10: on this text the
10-character fragment is dropped by the code. -/
theorem c5_length_filter_counterexample :
    extract_sentences_from_text (("012345678. theremainder").toList)
      ≠ ((splitSentences (("012345678. theremainder").toList)).map pyStrip).filter
          (fun s => decide (10 ≤ s.length)) := by
  decide

/-! ### Run-level helper lemmas -/

theorem pyMain_run (getText : List Char → List Char) (bedrock : Bedrock)
    (fs : String → Option String) (path content : String)
    (hfs : fs path = some content)
    (hs : read_file_sentencesS getText path content ≠ []) :
    pyMain getText bedrock fs ["chunked_analyzer.py", path]
      = ⟨0, some (artifactName path,
            fusion_analysis bedrock (chunkEntries bedrock
              (makeChunks 400 (read_file_sentencesS getText path content)))),
          (makeChunks 400 (read_file_sentencesS getText path content)).length + 1⟩ := by
  have hlen : (["chunked_analyzer.py", path] : List String).length = 2 := rfl
  have hget : (["chunked_analyzer.py", path] : List String).getD 1 "" = path := rfl
  have hemp : (read_file_sentencesS getText path content).isEmpty = false := by
    cases h : (read_file_sentencesS getText path content).isEmpty
    · rfl
    · exact absurd (List.isEmpty_iff.mp h) hs
  simp [pyMain, hfs, hemp]

theorem pyMain_empty (getText : List Char → List Char) (bedrock : Bedrock)
    (fs : String → Option String) (path content : String)
    (hfs : fs path = some content)
    (hs : read_file_sentencesS getText path content = []) :
    pyMain getText bedrock fs ["chunked_analyzer.py", path] = ⟨0, none, 0⟩ := by
  have hlen : (["chunked_analyzer.py", path] : List String).length = 2 := rfl
  have hget : (["chunked_analyzer.py", path] : List String).getD 1 "" = path := rfl
  simp [pyMain, hfs, hs]

theorem chunkEntriesAux_length (bedrock : Bedrock) (total : Nat) :
    ∀ (chunks : List (List String)) (k : Nat),
      (chunkEntriesAux bedrock total k chunks).length = chunks.length := by
  intro chunks
  induction chunks with
  | nil => intro k; rfl
  | cons c rest ih => intro k; simp [chunkEntriesAux, ih (k + 1)]

theorem chunkEntriesAux_get (bedrock : Bedrock) (total : Nat) :
    ∀ (chunks : List (List String)) (k i : Nat)
      (h : i < (chunkEntriesAux bedrock total k chunks).length) (hc : i < chunks.length),
      (chunkEntriesAux bedrock total k chunks).get ⟨i, h⟩
        = "CHUNK " ++ toString (k + i) ++ ":\n"
            ++ analyze_chunk bedrock (chunks.get ⟨i, hc⟩) (k + i) total := by
  intro chunks
  induction chunks with
  | nil => intro k i h hc; simp at hc
  | cons c rest ih =>
      intro k i h hc
      cases i with
      | zero => rfl
      | succ j =>
          have hj : j < (chunkEntriesAux bedrock total (k + 1) rest).length := by
            have := h
            simp [chunkEntriesAux, chunkEntriesAux_length] at this ⊢
            omega
          have hcj : j < rest.length := by simpa using hc
          have := ih (k + 1) j hj hcj
          have harr : k + 1 + j = k + (j + 1) := by omega
          rw [harr] at this
          exact this

/-! ### Claim C1 -/

/-- C1: if the completion call for a chunk raises, `analyze_chunk` returns the
`"Chunk <ordinal> analysis failed: <diagnostic>"` marker instead of letting
the exception propagate; and whenever the pipeline reaches the analysis stage
it writes a consolidated report, whatever the completion capability does
(in particular when every call raises). -/
theorem c1_chunk_failure_graceful :
    (∀ (bedrock : Bedrock) (sentences : List String) (i total : Nat) (e : String),
        bedrock.converse ⟨sonnetModelId,
            chunkPrompt (String.intercalate ("\n") sentences) i total, 1500⟩
          = Except.error e →
        analyze_chunk bedrock sentences i total
          = "Chunk " ++ toString i ++ " analysis failed: " ++ e)
    ∧ (∀ (getText : List Char → List Char) (bedrock : Bedrock)
          (fs : String → Option String) (path content : String),
        fs path = some content →
        read_file_sentencesS getText path content ≠ [] →
        (pyMain getText bedrock fs ["chunked_analyzer.py", path]).artifact
          = some (artifactName path,
              fusion_analysis bedrock (chunkEntries bedrock
                (makeChunks 400 (read_file_sentencesS getText path content))))) := by
  constructor
  · intro bedrock sentences i total e he
    simp [analyze_chunk, he]
  · intro getText bedrock fs path content hfs hs
    rw [pyMain_run getText bedrock fs path content hfs hs]

/-- Witness for C1: a capability that raises on every call still yields the
per-chunk failure marker and a written report containing the fusion-failure
marker. -/
theorem c1_chunk_failure_graceful_witness :
    analyze_chunk ⟨fun _ => Except.error ("boom")⟩ ["alpha"] 1 1
        = "Chunk 1 analysis failed: boom"
    ∧ (pyMain (fun l => l) ⟨fun _ => Except.error ("boom")⟩
          (fun p => if p = "a.txt" then some ("This is a long enough sentence. ") else none)
          ["chunked_analyzer.py", "a.txt"]).artifact
        = some (artifactName "a.txt", "Fusion analysis failed: boom") := by
  constructor
  · exact c1_chunk_failure_graceful.1 ⟨fun _ => Except.error ("boom")⟩ ["alpha"] 1 1 ("boom") rfl
  · rw [c1_chunk_failure_graceful.2 (fun l => l) ⟨fun _ => Except.error ("boom")⟩
      (fun p => if p = "a.txt" then some ("This is a long enough sentence. ") else none)
      "a.txt" ("This is a long enough sentence. ") rfl (by decide)]
    decide

/-! ### Claim C3 -/

/-- C3: the consolidation input lists one entry per chunk, in ascending
ordinal order, each prefixed by its `CHUNK <ordinal>:` label, and the fusion
prompt joins these entries with blank-line separators between the fixed
template parts. -/
theorem c3_fusion_prompt_order :
    (∀ (bedrock : Bedrock) (chunks : List (List String)),
        (chunkEntries bedrock chunks).length = chunks.length)
    ∧ (∀ (bedrock : Bedrock) (chunks : List (List String)) (i : Nat)
          (h2 : i < (chunkEntries bedrock chunks).length) (h1 : i < chunks.length),
        (chunkEntries bedrock chunks).get ⟨i, h2⟩
          = "CHUNK " ++ toString (i + 1) ++ ":\n"
              ++ analyze_chunk bedrock (chunks.get ⟨i, h1⟩) (i + 1) chunks.length)
    ∧ (∀ (chunk_results : List String),
        fusionPrompt chunk_results
          = fusionTemplatePre ++ String.intercalate ("\n\n") chunk_results
              ++ fusionTemplatePost) := by
  refine ⟨fun bedrock chunks => chunkEntriesAux_length bedrock chunks.length chunks 1,
    ?_, fun _ => rfl⟩
  intro bedrock chunks i h2 h1
  have := chunkEntriesAux_get bedrock chunks.length chunks 1 i h2 h1
  rw [Nat.add_comm 1 i] at this
  exact this

/-- Witness for C3 with two chunks and a failing capability: the entries are
labelled `CHUNK 1`, `CHUNK 2` in order. -/
theorem c3_fusion_prompt_order_witness :
    (chunkEntries ⟨fun _ => Except.error ("boom")⟩ [["alpha"], ["beta"]]).length = 2
    ∧ (chunkEntries ⟨fun _ => Except.error ("boom")⟩ [["alpha"], ["beta"]]).get ⟨0, by decide⟩
        = "CHUNK " ++ toString 1 ++ ":\n"
            ++ analyze_chunk ⟨fun _ => Except.error ("boom")⟩ ["alpha"] 1 2 :=
  ⟨c3_fusion_prompt_order.1 ⟨fun _ => Except.error ("boom")⟩ [["alpha"], ["beta"]],
   c3_fusion_prompt_order.2.1 ⟨fun _ => Except.error ("boom")⟩ [["alpha"], ["beta"]] 0
     (by decide) (by decide)⟩

/-! ### Claim C4 -/

/-- C4 (code bug): on an unsupported format tag, and likewise on an input
yielding zero units, `main` returns early — no completion call, no artifact —
but with process exit status 0, not the non-zero status the claim (and the
dashboard's `returncode` check) requires. -/
theorem c4_unsupported_input_exit_status :
    pyMain (fun l => l) ⟨fun _ => Except.error ("unreachable")⟩
        (fun p => if p = "doc.pdf" then some ("A sufficiently long sentence for the loader. ")
          else none)
        ["chunked_analyzer.py", "doc.pdf"]
      = ⟨0, none, 0⟩
    ∧ pyMain (fun l => l) ⟨fun _ => Except.error ("unreachable")⟩
        (fun p => if p = "short.txt" then some ("tiny. ok.") else none)
        ["chunked_analyzer.py", "short.txt"]
      = ⟨0, none, 0⟩ := by
  constructor <;> decide

/-! ### Claim C7 -/

/-- C7: if the fusion-stage completion call raises, `fusion_analysis` returns
the `"Fusion analysis failed: <diagnostic>"` marker instead of raising, the
run still writes the artifact containing exactly that marker, and the marker
differs from every structured report (one starting with the mandated first
section heading); on success the capability's text is passed through. -/
theorem c7_fusion_failure_contained :
    (∀ (bedrock : Bedrock) (rs : List String) (e : String),
        bedrock.converse ⟨sonnetModelId, fusionPrompt rs, 3000⟩ = Except.error e →
        fusion_analysis bedrock rs = "Fusion analysis failed: " ++ e)
    ∧ (∀ (bedrock : Bedrock) (rs : List String) (t : String),
        bedrock.converse ⟨sonnetModelId, fusionPrompt rs, 3000⟩ = Except.ok t →
        fusion_analysis bedrock rs = t)
    ∧ (∀ (getText : List Char → List Char) (bedrock : Bedrock)
          (fs : String → Option String) (path content e : String),
        fs path = some content →
        read_file_sentencesS getText path content ≠ [] →
        bedrock.converse ⟨sonnetModelId,
            fusionPrompt (chunkEntries bedrock
              (makeChunks 400 (read_file_sentencesS getText path content))), 3000⟩
          = Except.error e →
        (pyMain getText bedrock fs ["chunked_analyzer.py", path]).artifact
          = some (artifactName path, "Fusion analysis failed: " ++ e))
    ∧ (∀ (e t : String), isStructuredReport t = true →
        ("Fusion analysis failed: " ++ e) ≠ t) := by
  refine ⟨?_, ?_, ?_, ?_⟩
  · intro bedrock rs e he
    unfold fusion_analysis
    rw [he]
  · intro bedrock rs t ht
    unfold fusion_analysis
    rw [ht]
  · intro getText bedrock fs path content e hfs hs he
    rw [pyMain_run getText bedrock fs path content hfs hs]
    have : fusion_analysis bedrock (chunkEntries bedrock
        (makeChunks 400 (read_file_sentencesS getText path content)))
        = "Fusion analysis failed: " ++ e := by
      unfold fusion_analysis
      rw [he]
    rw [this]
  · intro e t hs ht
    have hpre : ("1. BILL SUMMARY").toList <+: t.toList := by
      have h := hs
      unfold isStructuredReport at h
      exact List.isPrefixOf_iff_prefix.mp h
    obtain ⟨r, hr⟩ := hpre
    have hdata : t.toList = ("Fusion analysis failed: ").toList ++ e.toList := by
      rw [← ht]; rfl
    rw [← hr] at hdata
    have hh := congrArg List.head? hdata
    rw [show ((("1. BILL SUMMARY").toList ++ r).head?) = some '1' from rfl,
      show (((("Fusion analysis failed: ").toList) ++ e.toList).head?) = some 'F' from rfl]
      at hh
    exact absurd hh (by decide)

/-- Witness for C7: a failing capability produces the marker, which is
written and differs from a structured report; a succeeding one passes its
text through. -/
theorem c7_fusion_failure_contained_witness :
    fusion_analysis ⟨fun _ => Except.error ("boom")⟩ ["entry"]
        = "Fusion analysis failed: " ++ "boom"
    ∧ fusion_analysis ⟨fun _ => Except.ok ("fine")⟩ ["entry"] = "fine"
    ∧ (pyMain (fun l => l) ⟨fun _ => Except.error ("boom")⟩
          (fun p => if p = "a.txt" then some ("This is a long enough sentence. ") else none)
          ["chunked_analyzer.py", "a.txt"]).artifact
        = some (artifactName "a.txt", "Fusion analysis failed: " ++ "boom")
    ∧ ("Fusion analysis failed: " ++ "boom") ≠ "1. BILL SUMMARY: fine" :=
  ⟨c7_fusion_failure_contained.1 ⟨fun _ => Except.error ("boom")⟩ ["entry"] ("boom") rfl,
   c7_fusion_failure_contained.2.1 ⟨fun _ => Except.ok ("fine")⟩ ["entry"] ("fine") rfl,
   c7_fusion_failure_contained.2.2.1 (fun l => l) ⟨fun _ => Except.error ("boom")⟩
     (fun p => if p = "a.txt" then some ("This is a long enough sentence. ") else none)
     "a.txt" ("This is a long enough sentence. ") ("boom") rfl (by decide) rfl,
   c7_fusion_failure_contained.2.2.2 ("boom") ("1. BILL SUMMARY: fine") (by decide)⟩

/-! ### Lemmas for the sink -/

theorem lastIdxOf_not_mem (c : Char) : ∀ l : List Char, c ∉ l → lastIdxOf c l = none := by
  intro l
  induction l with
  | nil => intro _; rfl
  | cons a rest ih =>
      intro h
      have hr : lastIdxOf c rest = none := ih (fun hm => h (List.mem_cons_of_mem a hm))
      have ha : ¬a = c := fun he => h (he ▸ List.mem_cons_self a rest)
      simp [lastIdxOf, hr, ha]

theorem lastIdxOf_append_cons (c : Char) (f : List Char) (hf : c ∉ f) :
    ∀ d : List Char, lastIdxOf c (d ++ c :: f) = some d.length := by
  intro d
  induction d with
  | nil => simp [lastIdxOf, lastIdxOf_not_mem c f hf]
  | cons a d' ih => simp [lastIdxOf, ih]

theorem pyBasename_append (d f : List Char) (hf : '/' ∉ f) :
    pyBasename (d ++ '/' :: f) = f := by
  unfold pyBasename
  rw [lastIdxOf_append_cons '/' f hf d]
  have h : d ++ '/' :: f = (d ++ ['/']) ++ f := by simp
  rw [h]
  exact List.drop_left' (by simp)

theorem pyBasename_no_slash (f : List Char) (hf : '/' ∉ f) : pyBasename f = f := by
  unfold pyBasename
  rw [lastIdxOf_not_mem '/' f hf]

/-! ### Claim C8 -/

/-- C8: when a run writes at all, the artifact name is the deterministic
`consolidated_analysis_<base_name>.txt` derived only from the input path's
base name (directories are irrelevant), and a second run over the same name
overwrites the first artifact in place, touching no other name. -/
theorem c8_sink_overwrite :
    (∀ (getText : List Char → List Char) (bedrock : Bedrock)
        (fs : String → Option String) (path content n rep : String),
        fs path = some content →
        (pyMain getText bedrock fs ["chunked_analyzer.py", path]).artifact = some (n, rep) →
        n = artifactName path)
    ∧ (∀ (d f : List Char), '/' ∉ f →
        artifactName (String.mk (d ++ '/' :: f)) = artifactName (String.mk f))
    ∧ (∀ (disk : String → Option String) (r1 r2 : RunResult) (n c1 c2 : String),
        r1.artifact = some (n, c1) → r2.artifact = some (n, c2) →
        applyRun r2 (applyRun r1 disk) n = some c2
        ∧ ∀ m, m ≠ n → applyRun r2 (applyRun r1 disk) m = disk m) := by
  refine ⟨?_, ?_, ?_⟩
  · intro getText bedrock fs path content n rep hfs hart
    by_cases hs : read_file_sentencesS getText path content = []
    · rw [pyMain_empty getText bedrock fs path content hfs hs] at hart
      simp at hart
    · rw [pyMain_run getText bedrock fs path content hfs hs] at hart
      simp at hart
      exact hart.1.symm
  · intro d f hf
    unfold artifactName
    have h1 : (String.mk (d ++ '/' :: f)).toList = d ++ '/' :: f := rfl
    have h2 : (String.mk f).toList = f := rfl
    rw [h1, h2, pyBasename_append d f hf, pyBasename_no_slash f hf]
  · intro disk r1 r2 n c1 c2 h1 h2
    constructor
    · simp [applyRun, h1, h2]
    · intro m hm
      simp [applyRun, h1, h2, hm]

/-- Witness for C8: the name ignores the directory, and two writes under the
same name leave one artifact holding the second content. -/
theorem c8_sink_overwrite_witness :
    artifactName (String.mk (("dir").toList ++ '/' :: ("a.txt").toList))
        = artifactName (String.mk (("a.txt").toList))
    ∧ "consolidated_analysis_a.txt" = artifactName "dir/a.txt"
    ∧ applyRun ⟨0, some ("n.txt", "second"), 1⟩
        (applyRun ⟨0, some ("n.txt", "first"), 1⟩ (fun _ => none)) "n.txt" = some ("second")
    ∧ applyRun ⟨0, some ("n.txt", "second"), 1⟩
        (applyRun ⟨0, some ("n.txt", "first"), 1⟩ (fun _ => none)) "other.txt" = none :=
  ⟨c8_sink_overwrite.2.1 (("dir").toList) (("a.txt").toList) (by decide),
   c8_sink_overwrite.1 (fun l => l) ⟨fun _ => Except.ok ("fine")⟩
     (fun p => if p = "dir/a.txt" then some ("This is a long enough sentence. ") else none)
     "dir/a.txt" ("This is a long enough sentence. ") "consolidated_analysis_a.txt" "fine"
     rfl (by decide),
   (c8_sink_overwrite.2.2 (fun _ => none) ⟨0, some ("n.txt", "first"), 1⟩
     ⟨0, some ("n.txt", "second"), 1⟩ "n.txt" "first" "second" rfl rfl).1,
   (c8_sink_overwrite.2.2 (fun _ => none) ⟨0, some ("n.txt", "first"), 1⟩
     ⟨0, some ("n.txt", "second"), 1⟩ "n.txt" "first" "second" rfl rfl).2
     "other.txt" (by decide)⟩

/-! ### Lemmas for the format-tag inference -/

theorem lastDotSegAux_no_dot : ∀ (l acc : List Char), '.' ∉ l →
    lastDotSegAux acc l = acc.reverse ++ l := by
  intro l
  induction l with
  | nil => intro acc _; simp [lastDotSegAux]
  | cons c rest ih =>
      intro acc h
      have hc : ¬c = '.' := fun he => h (he ▸ List.mem_cons_self c rest)
      have hm : '.' ∉ rest := fun hm => h (List.mem_cons_of_mem c hm)
      simp only [lastDotSegAux, if_neg hc]
      rw [ih (c :: acc) hm]
      simp

theorem lastDotSegAux_dot : ∀ (p acc q : List Char), '.' ∉ q →
    lastDotSegAux acc (p ++ '.' :: q) = q := by
  intro p
  induction p with
  | nil =>
      intro acc q h
      show lastDotSegAux acc ('.' :: q) = q
      simp only [lastDotSegAux, if_pos rfl]
      rw [lastDotSegAux_no_dot q [] h]
      rfl
  | cons c p' ih =>
      intro acc q h
      show lastDotSegAux acc (c :: (p' ++ '.' :: q)) = q
      by_cases hc : c = '.'
      · simp only [lastDotSegAux, if_pos hc]
        exact ih [] q h
      · simp only [lastDotSegAux, if_neg hc]
        exact ih (c :: acc) q h

theorem pyExtTag_of_split (path p q : List Char)
    (hpq : path.map Char.toLower = p ++ '.' :: q) (hq : '.' ∉ q) :
    pyExtTag path = q := by
  unfold pyExtTag
  rw [hpq]
  exact lastDotSegAux_dot p [] q hq

theorem pyExtTag_no_dot (path : List Char) (h : '.' ∉ path.map Char.toLower) :
    pyExtTag path = path.map Char.toLower := by
  unfold pyExtTag
  rw [lastDotSegAux_no_dot _ [] h]
  rfl

/-! ### Claim C9 -/

/-- C9 (amended): the format tag is the segment of the entire lowercased path
after its last `'.'` (the whole lowercased path when it has none), so
uppercase extensions such as `DOC.XML` are accepted as xml; a dotless path
named exactly `txt` is read as plain text, `xml` as XML, `html` as HTML, and
any path whose tag is none of the three yields the empty sequence. -/
theorem c9_format_tag_amended :
    (∀ (path p q : List Char), path.map Char.toLower = p ++ '.' :: q → '.' ∉ q →
        pyExtTag path = q)
    ∧ (∀ path : List Char, '.' ∉ path.map Char.toLower →
        pyExtTag path = path.map Char.toLower)
    ∧ (∀ (getText : List Char → List Char) (content : List Char),
        read_file_sentencesL getText (("DOC.XML").toList) content
          = read_xml_sentencesL content)
    ∧ (∀ (getText : List Char → List Char) (content : List Char),
        read_file_sentencesL getText (("txt").toList) content
          = read_txt_sentencesL content)
    ∧ (∀ (getText : List Char → List Char) (content : List Char),
        read_file_sentencesL getText (("xml").toList) content
          = read_xml_sentencesL content)
    ∧ (∀ (getText : List Char → List Char) (content : List Char),
        read_file_sentencesL getText (("html").toList) content
          = read_html_sentencesL getText content)
    ∧ (∀ (getText : List Char → List Char) (path content : List Char),
        pyExtTag path ∉ [("xml").toList, ("html").toList, ("txt").toList] →
        read_file_sentencesL getText path content = []) := by
  refine ⟨pyExtTag_of_split, pyExtTag_no_dot, ?_, ?_, ?_, ?_, ?_⟩
  · intro getText content
    simp only [read_file_sentencesL]
    rw [if_pos (by decide)]
  · intro getText content
    simp only [read_file_sentencesL]
    rw [if_neg (by decide), if_neg (by decide), if_pos (by decide)]
  · intro getText content
    simp only [read_file_sentencesL]
    rw [if_pos (by decide)]
  · intro getText content
    simp only [read_file_sentencesL]
    rw [if_neg (by decide), if_pos (by decide)]
  · intro getText path content h
    simp only [List.mem_cons, List.mem_singleton, not_or] at h
    obtain ⟨h1, h2, h3⟩ := h
    simp only [read_file_sentencesL]
    rw [if_neg h1, if_neg h2, if_neg h3.1]

/-- Witness for C9: an uppercase extension is accepted, a dotless path uses
the whole name, and an unsupported tag yields the empty sequence. -/
theorem c9_format_tag_amended_witness :
    pyExtTag (("/tmp/DOC.XML").toList) = ("xml").toList
    ∧ pyExtTag (("noext").toList) = ("noext").toList
    ∧ read_file_sentencesL (fun l => l) (("data.bin").toList) (("irrelevant").toList) = [] :=
  ⟨c9_format_tag_amended.1 (("/tmp/DOC.XML").toList) (("/tmp/doc").toList) (("xml").toList)
     (by decide) (by decide),
   c9_format_tag_amended.2.1 (("noext").toList) (by decide),
   c9_format_tag_amended.2.2.2.2.2.2 (fun l => l) (("data.bin").toList)
     (("irrelevant").toList) (by decide)⟩

/-- C9 counterexample: a dotless file named `xml` is NOT read as the empty
sequence (the claim says every dotless name other than `txt` is): it is
dispatched to the XML reader and yields a labelled unit. -/
theorem c9_dotless_name_counterexample :
    read_file_sentencesL (fun l => l) (("xml").toList)
        (("This is a sufficiently long sentence.").toList)
      = [("XML Phrase 1: This is a sufficiently long sentence.").toList] := by
  decide

/-! ### Lemmas about the XML phrase labels -/

theorem labelPhrases_length : ∀ (xs : List (List Char)) (k : Nat),
    (labelPhrases k xs).length = xs.length := by
  intro xs
  induction xs with
  | nil => intro k; rfl
  | cons s rest ih => intro k; simp [labelPhrases, ih (k + 1)]

theorem labelPhrases_get : ∀ (xs : List (List Char)) (k i : Nat)
    (h : i < (labelPhrases k xs).length) (h2 : i < xs.length),
    (labelPhrases k xs).get ⟨i, h⟩ = xmlPhraseLabel (k + i) ++ xs.get ⟨i, h2⟩ := by
  intro xs
  induction xs with
  | nil => intro k i h h2; simp at h2
  | cons s rest ih =>
      intro k i h h2
      cases i with
      | zero => rfl
      | succ j =>
          have hj : j < (labelPhrases (k + 1) rest).length := by
            simpa [labelPhrases, labelPhrases_length] using h
          have hj2 : j < rest.length := by simpa using h2
          have hstep := ih (k + 1) j hj hj2
          have harr : k + 1 + j = k + (j + 1) := by omega
          rw [harr] at hstep
          exact hstep

theorem labelPhrases_take : ∀ (xs : List (List Char)) (k n : Nat),
    labelPhrases k (xs.take n) = (labelPhrases k xs).take n := by
  intro xs
  induction xs with
  | nil => intro k n; simp [labelPhrases]
  | cons s rest ih =>
      intro k n
      cases n with
      | zero => rfl
      | succ m => simp [labelPhrases, List.take_succ_cons, ih (k + 1) m]

theorem string_toList_append (a b : String) : (a ++ b).toList = a.toList ++ b.toList :=
  String.data_append a b

theorem xmlPhraseLabel_length_pos (n : Nat) : 0 < (xmlPhraseLabel n).length := by
  unfold xmlPhraseLabel
  rw [string_toList_append, string_toList_append, List.length_append, List.length_append]
  have h : (("XML Phrase ").toList).length = 11 := by decide
  omega

theorem label_append_ne (n : Nat) (s : List Char) : xmlPhraseLabel n ++ s ≠ s := by
  intro h
  have hl := congrArg List.length h
  rw [List.length_append] at hl
  have hp := xmlPhraseLabel_length_pos n
  omega

theorem phrase201Marker_decomp :
    phrase201Marker
      = xmlPhraseLabel 201 ++ ("[Additional content truncated for performance]").toList := by
  decide

/-! ### Claim C10 -/

/-- C10: every unit the XML loader returns carries the `XML Phrase <n>: `
label with `n` its 1-based position (the 201st, when present, is the
truncation marker labelled `XML Phrase 201`), so an XML unit never equals the
raw extracted sentence; the plain-text and HTML readers return the extracted
sentences unmodified. -/
theorem c10_xml_labels (content : List Char) :
    (∀ (i : Nat) (h : i < (read_xml_sentencesL content).length),
        ∃ s, (read_xml_sentencesL content).get ⟨i, h⟩ = xmlPhraseLabel (i + 1) ++ s)
    ∧ (∀ (i : Nat) (hu : i < (read_xml_sentencesL content).length)
          (hx : i < (extract_sentences_from_text (xmlSourceText content)).length),
        i < 200 →
        (read_xml_sentencesL content).get ⟨i, hu⟩
            = xmlPhraseLabel (i + 1)
                ++ (extract_sentences_from_text (xmlSourceText content)).get ⟨i, hx⟩
          ∧ (read_xml_sentencesL content).get ⟨i, hu⟩
              ≠ (extract_sentences_from_text (xmlSourceText content)).get ⟨i, hx⟩)
    ∧ read_txt_sentencesL content = extract_sentences_from_text content
    ∧ (∀ getText : List Char → List Char,
        read_html_sentencesL getText content
          = extract_sentences_from_text (getText content)) := by
  by_cases hc : 200 < (extract_sentences_from_text (xmlSourceText content)).length
  · have hunits : read_xml_sentencesL content
        = labelPhrases 1 ((extract_sentences_from_text (xmlSourceText content)).take 200)
            ++ [phrase201Marker] := by
      simp only [read_xml_sentencesL]
      rw [if_pos hc]
    have hlen : (labelPhrases 1
        ((extract_sentences_from_text (xmlSourceText content)).take 200)).length = 200 := by
      rw [labelPhrases_length, List.length_take]
      omega
    have hleft : ∀ (i : Nat) (h : i < (read_xml_sentencesL content).length), i < 200 →
        ∀ (hit : i < ((extract_sentences_from_text (xmlSourceText content)).take 200).length),
        (read_xml_sentencesL content).get ⟨i, h⟩
          = xmlPhraseLabel (i + 1)
              ++ ((extract_sentences_from_text (xmlSourceText content)).take 200).get
                  ⟨i, hit⟩ := by
      intro i h hi hit
      have hib : i < (labelPhrases 1
          ((extract_sentences_from_text (xmlSourceText content)).take 200)).length := by
        rw [hlen]; exact hi
      calc (read_xml_sentencesL content).get ⟨i, h⟩
          = (labelPhrases 1 ((extract_sentences_from_text (xmlSourceText content)).take 200)
              ++ [phrase201Marker]).get ⟨i, by rw [← hunits]; exact h⟩ :=
            List.get_of_eq hunits ⟨i, h⟩
        _ = (labelPhrases 1
              ((extract_sentences_from_text (xmlSourceText content)).take 200)).get
                ⟨i, hib⟩ := by
            simp only [List.get_eq_getElem]
            exact List.getElem_append_left hib
        _ = xmlPhraseLabel (1 + i)
              ++ ((extract_sentences_from_text (xmlSourceText content)).take 200).get
                  ⟨i, hit⟩ := labelPhrases_get _ 1 i hib hit
        _ = xmlPhraseLabel (i + 1)
              ++ ((extract_sentences_from_text (xmlSourceText content)).take 200).get
                  ⟨i, hit⟩ := by rw [Nat.add_comm 1 i]
    refine ⟨?_, ?_, rfl, fun _ => rfl⟩
    · intro i h
      by_cases hi : i < 200
      · have hit : i < ((extract_sentences_from_text (xmlSourceText content)).take 200).length := by
          rw [List.length_take]; omega
        exact ⟨_, hleft i h hi hit⟩
      · have hlen2 : (read_xml_sentencesL content).length = 201 := by
          rw [hunits, List.length_append, hlen]
          rfl
        have h' := h
        rw [hlen2] at h'
        have hi200 : i = 200 := by omega
        subst hi200
        refine ⟨("[Additional content truncated for performance]").toList, ?_⟩
        calc (read_xml_sentencesL content).get ⟨200, h⟩
            = (labelPhrases 1 ((extract_sentences_from_text (xmlSourceText content)).take 200)
                ++ [phrase201Marker]).get ⟨200, by rw [← hunits]; exact h⟩ :=
              List.get_of_eq hunits ⟨200, h⟩
          _ = phrase201Marker := by
              simp only [List.get_eq_getElem]
              rw [List.getElem_append_right (by rw [hlen])]
              simp [hlen]
          _ = xmlPhraseLabel (200 + 1)
                ++ ("[Additional content truncated for performance]").toList :=
              phrase201Marker_decomp
    · intro i hu hx hi
      have hit : i < ((extract_sentences_from_text (xmlSourceText content)).take 200).length := by
        rw [List.length_take]; omega
      have htake : ((extract_sentences_from_text (xmlSourceText content)).take 200).get ⟨i, hit⟩
          = (extract_sentences_from_text (xmlSourceText content)).get ⟨i, hx⟩ := by
        simp only [List.get_eq_getElem]
        exact List.getElem_take _
      constructor
      · rw [hleft i hu hi hit, htake]
      · rw [hleft i hu hi hit, htake]
        exact label_append_ne (i + 1) _
  · have hunits : read_xml_sentencesL content
        = labelPhrases 1 (extract_sentences_from_text (xmlSourceText content)) := by
      simp only [read_xml_sentencesL]
      rw [if_neg hc]
    have hmain : ∀ (i : Nat) (h : i < (read_xml_sentencesL content).length)
        (hx : i < (extract_sentences_from_text (xmlSourceText content)).length),
        (read_xml_sentencesL content).get ⟨i, h⟩
          = xmlPhraseLabel (i + 1)
              ++ (extract_sentences_from_text (xmlSourceText content)).get ⟨i, hx⟩ := by
      intro i h hx
      have hib : i < (labelPhrases 1
          (extract_sentences_from_text (xmlSourceText content))).length := by
        rw [labelPhrases_length]; exact hx
      calc (read_xml_sentencesL content).get ⟨i, h⟩
          = (labelPhrases 1 (extract_sentences_from_text (xmlSourceText content))).get
              ⟨i, hib⟩ := List.get_of_eq hunits ⟨i, h⟩
        _ = xmlPhraseLabel (1 + i)
              ++ (extract_sentences_from_text (xmlSourceText content)).get ⟨i, hx⟩ :=
            labelPhrases_get _ 1 i hib hx
        _ = xmlPhraseLabel (i + 1)
              ++ (extract_sentences_from_text (xmlSourceText content)).get ⟨i, hx⟩ := by
            rw [Nat.add_comm 1 i]
    refine ⟨?_, ?_, rfl, fun _ => rfl⟩
    · intro i h
      have hx : i < (extract_sentences_from_text (xmlSourceText content)).length := by
        have h' := h
        rw [hunits, labelPhrases_length] at h'
        exact h'
      exact ⟨_, hmain i h hx⟩
    · intro i hu hx _
      refine ⟨hmain i hu hx, ?_⟩
      rw [hmain i hu hx]
      exact label_append_ne (i + 1) _

/-- Witness for C10 at a concrete XML document: the first unit is the
labelled first sentence, distinct from the raw sentence. -/
theorem c10_xml_labels_witness :
    (read_xml_sentencesL (("<p>This test sentence is long.</p>").toList)).get ⟨0, by decide⟩
        = xmlPhraseLabel (0 + 1)
            ++ (extract_sentences_from_text
                  (xmlSourceText (("<p>This test sentence is long.</p>").toList))).get
                ⟨0, by decide⟩
    ∧ (read_xml_sentencesL (("<p>This test sentence is long.</p>").toList)).get ⟨0, by decide⟩
        ≠ (extract_sentences_from_text
              (xmlSourceText (("<p>This test sentence is long.</p>").toList))).get
            ⟨0, by decide⟩ :=
  (c10_xml_labels (("<p>This test sentence is long.</p>").toList)).2.1 0 (by decide)
    (by decide) (by decide)

/-! ### Claim C6 -/

/-- C6: for XML input whose normalized text exceeds 50,000 characters the
segmentation input is the 50,000-character truncation with the explicit
marker appended; and when segmentation yields more than 200 units the loader
returns exactly the first 200 (labelled) units plus the explicit
truncation-marker unit as the final, 201st unit. -/
theorem c6_xml_cost_bounds :
    (∀ content : List Char, 50000 < (normalizeXml content).length →
        xmlSourceText content = (normalizeXml content).take 50000 ++ truncMarkerText)
    ∧ (∀ content : List Char,
        200 < (extract_sentences_from_text (xmlSourceText content)).length →
        read_xml_sentencesL content
            = (labelPhrases 1 (extract_sentences_from_text (xmlSourceText content))).take 200
                ++ [phrase201Marker]
          ∧ (read_xml_sentencesL content).length = 201
          ∧ (read_xml_sentencesL content).getLast? = some phrase201Marker) := by
  constructor
  · intro content h
    simp only [xmlSourceText]
    rw [if_pos h]
  · intro content h
    have hunits : read_xml_sentencesL content
        = labelPhrases 1 ((extract_sentences_from_text (xmlSourceText content)).take 200)
            ++ [phrase201Marker] := by
      simp only [read_xml_sentencesL]
      rw [if_pos h]
    refine ⟨?_, ?_, ?_⟩
    · rw [hunits, labelPhrases_take]
    · rw [hunits, List.length_append, labelPhrases_length, List.length_take]
      simp only [List.length_cons, List.length_nil]
      omega
    · rw [hunits]
      exact List.getLast?_concat _

/-! ### Concrete-input evaluation lemmas for the C6 witness -/

theorem stripTagsAux_no_lt : ∀ l : List Char, '<' ∉ l → stripTagsAux none l = l := by
  intro l
  induction l with
  | nil => intro _; rfl
  | cons c rest ih =>
      intro h
      have hc : ¬c = '<' := fun he => h (he ▸ List.mem_cons_self c rest)
      have hm : '<' ∉ rest := fun hm' => h (List.mem_cons_of_mem c hm')
      show (if c = '<' then stripTagsAux (some []) rest else c :: stripTagsAux none rest)
        = c :: rest
      rw [if_neg hc, ih hm]

theorem removePIAux_cons_ne (c : Char) (rest : List Char) (hc : c ≠ '<') :
    removePIAux none (c :: rest) = c :: removePIAux none rest := by
  rw [removePIAux.eq_def]
  split <;> simp_all

theorem removePIAux_no_lt : ∀ l : List Char, '<' ∉ l → removePIAux none l = l := by
  intro l
  induction l with
  | nil => intro _; rfl
  | cons c rest ih =>
      intro h
      have hc : c ≠ '<' := fun he => h (he ▸ List.mem_cons_self c rest)
      have hm : '<' ∉ rest := fun hm' => h (List.mem_cons_of_mem c hm')
      rw [removePIAux_cons_ne c rest hc, ih hm]

theorem no_lt_big (m : Nat) : '<' ∉ (List.replicate m (fragT ++ [' '])).flatten ++ fragT := by
  intro h
  rcases List.mem_append.mp h with h | h
  · rcases List.mem_flatten.mp h with ⟨l, hl, hcl⟩
    rw [(List.mem_replicate.mp hl).2] at hcl
    revert hcl
    decide
  · revert h
    decide

theorem collapseAux_true_big (m : Nat) :
    collapseAux true ((List.replicate m (fragT ++ [' '])).flatten ++ fragT)
      = collapseAux false ((List.replicate m (fragT ++ [' '])).flatten ++ fragT) := by
  cases m with
  | zero => rfl
  | succ m' => rfl

theorem collapseAux_false_big : ∀ m : Nat,
    collapseAux false ((List.replicate m (fragT ++ [' '])).flatten ++ fragT)
      = (List.replicate m (fragT ++ [' '])).flatten ++ fragT := by
  intro m
  induction m with
  | zero => rfl
  | succ m' ih =>
      have h1 : collapseAux false ((List.replicate (m' + 1) (fragT ++ [' '])).flatten ++ fragT)
          = (fragT ++ [' '])
              ++ collapseAux true ((List.replicate m' (fragT ++ [' '])).flatten ++ fragT) := rfl
      rw [h1, collapseAux_true_big m', ih, List.replicate_succ, List.flatten_cons,
        List.append_assoc]
      simp [List.append_assoc]

theorem dropWhile_big (m : Nat) :
    ((List.replicate m (fragT ++ [' '])).flatten ++ fragT).dropWhile pySpace
      = (List.replicate m (fragT ++ [' '])).flatten ++ fragT := by
  cases m with
  | zero => rfl
  | succ m' => rfl

theorem reverse_dropWhile_big (m : Nat) :
    (((List.replicate m (fragT ++ [' '])).flatten ++ fragT).reverse).dropWhile pySpace
      = ((List.replicate m (fragT ++ [' '])).flatten ++ fragT).reverse := by
  rw [List.reverse_append]
  rfl

theorem pyStrip_big (m : Nat) :
    pyStrip ((List.replicate m (fragT ++ [' '])).flatten ++ fragT)
      = (List.replicate m (fragT ++ [' '])).flatten ++ fragT := by
  unfold pyStrip
  rw [dropWhile_big m, reverse_dropWhile_big m, List.reverse_reverse]

theorem normalizeXml_big (m : Nat) :
    normalizeXml ((List.replicate m (fragT ++ [' '])).flatten ++ fragT)
      = (List.replicate m (fragT ++ [' '])).flatten ++ fragT := by
  unfold normalizeXml stripTags collapseSpaces removePI
  rw [stripTagsAux_no_lt _ (no_lt_big m), collapseAux_false_big m, pyStrip_big m,
    removePIAux_no_lt _ (no_lt_big m)]

theorem length_big (m : Nat) :
    ((List.replicate m (fragT ++ [' '])).flatten ++ fragT).length = m * 14 + 13 := by
  rw [List.length_append]
  have h13 : fragT.length = 13 := by decide
  have hfl : ∀ k : Nat, ((List.replicate k (fragT ++ [' '])).flatten).length = k * 14 := by
    intro k
    induction k with
    | zero => rfl
    | succ k' ih =>
        rw [List.replicate_succ, List.flatten_cons, List.length_append, ih]
        have h14 : (fragT ++ [' ']).length = 14 := by decide
        omega
  rw [hfl m, h13]

theorem xmlSourceText_big (m : Nat) (hm : m * 14 + 13 ≤ 50000) :
    xmlSourceText ((List.replicate m (fragT ++ [' '])).flatten ++ fragT)
      = (List.replicate m (fragT ++ [' '])).flatten ++ fragT := by
  simp only [xmlSourceText]
  rw [normalizeXml_big m, if_neg (by rw [length_big m]; omega)]

theorem splitAux_big : ∀ m : Nat,
    splitAux (some []) ((List.replicate m (fragT ++ [' '])).flatten ++ fragT)
      = List.replicate m fragT ++ [fragT] := by
  intro m
  induction m with
  | zero => rfl
  | succ m' ih =>
      have h1 : splitAux (some []) ((List.replicate (m' + 1) (fragT ++ [' '])).flatten ++ fragT)
          = fragT :: splitAux none ((List.replicate m' (fragT ++ [' '])).flatten ++ fragT) := rfl
      rw [h1, splitAux_none_eq, dropWhile_big m', ih, List.replicate_succ]
      rfl

theorem extract_big (m : Nat) :
    extract_sentences_from_text ((List.replicate m (fragT ++ [' '])).flatten ++ fragT)
      = List.replicate m fragT ++ [fragT] := by
  unfold extract_sentences_from_text splitSentences
  rw [splitAux_big m]
  have hps : pyStrip fragT = fragT := by decide
  simp only [List.map_append, List.map_replicate, List.map_cons, List.map_nil, hps]
  rw [List.filter_eq_self.mpr ?_]
  intro a ha
  rcases List.mem_append.mp ha with ha | ha
  · rw [(List.mem_replicate.mp ha).2]
    decide
  · rw [List.mem_singleton.mp ha]
    decide

theorem no_lt_replicate_a (n : Nat) : '<' ∉ List.replicate n 'a' := by
  intro h
  have := (List.mem_replicate.mp h).2
  exact absurd this (by decide)

theorem collapseAux_replicate_a : ∀ n : Nat,
    collapseAux false (List.replicate n 'a') = List.replicate n 'a' := by
  intro n
  induction n with
  | zero => rfl
  | succ n' ih =>
      rw [List.replicate_succ]
      show 'a' :: collapseAux false (List.replicate n' 'a') = 'a' :: List.replicate n' 'a'
      rw [ih]

theorem dropWhile_replicate_a (n : Nat) :
    (List.replicate n 'a').dropWhile pySpace = List.replicate n 'a' := by
  cases n with
  | zero => rfl
  | succ n' => rw [List.replicate_succ]; rfl

theorem normalizeXml_replicate_a (n : Nat) :
    normalizeXml (List.replicate n 'a') = List.replicate n 'a' := by
  unfold normalizeXml stripTags collapseSpaces removePI pyStrip
  rw [stripTagsAux_no_lt _ (no_lt_replicate_a n), collapseAux_replicate_a n,
    dropWhile_replicate_a n, List.reverse_replicate, dropWhile_replicate_a n,
    List.reverse_replicate, removePIAux_no_lt _ (no_lt_replicate_a n)]

/-- Witness for C6: a 50,001-character normalized text is truncated with the
marker, and a 201-sentence document yields 201 units ending in the marker
unit. -/
theorem c6_xml_cost_bounds_witness :
    xmlSourceText (List.replicate 50001 'a')
        = (normalizeXml (List.replicate 50001 'a')).take 50000 ++ truncMarkerText
    ∧ (read_xml_sentencesL ((List.replicate 200 (fragT ++ [' '])).flatten ++ fragT)).length
        = 201
    ∧ (read_xml_sentencesL ((List.replicate 200 (fragT ++ [' '])).flatten ++ fragT)).getLast?
        = some phrase201Marker := by
  have hhyp : 200 < (extract_sentences_from_text (xmlSourceText
      ((List.replicate 200 (fragT ++ [' '])).flatten ++ fragT))).length := by
    rw [xmlSourceText_big 200 (by omega), extract_big 200]
    simp only [List.length_append, List.length_replicate, List.length_cons, List.length_nil]
    omega
  have h2 := c6_xml_cost_bounds.2 ((List.replicate 200 (fragT ++ [' '])).flatten ++ fragT) hhyp
  refine ⟨c6_xml_cost_bounds.1 (List.replicate 50001 'a') ?_, h2.2.1, h2.2.2⟩
  rw [normalizeXml_replicate_a, List.length_replicate]
  omega

end PolyScan
